import Mathlib

/-
Verification of the cylindrical-polar FDTD script (src/iitmsat/cylindrical-polar.py).

The script evolves three field arrays (E_z, H_r, H_phi) on a polar grid of
SIZE_R radial cells and SIZE_PHI azimuthal cells.  Arrays are embedded as
functions over Fin indices; the numpy slice arithmetic of the source is
translated slice-by-slice (the hstack wrap columns become branches on the
column index).  Field values live in an arbitrary `Field α` (instantiated at
ℚ for concrete evaluation and at ℝ where the Gaussian source value matters);
numpy float arithmetic is embedded as exact field arithmetic.
-/

namespace CylFDTD

/-- A 2D array with `a` rows and `b` columns, as in the numpy arrays. -/
abbrev Mat (a b : ℕ) (α : Type) := Fin a → Fin b → α

-- Grid extents and iteration count, lines 14-17 of the source.
def SIZE_R : ℕ := 100

def SIZE_PHI : ℕ := 180

def MAXTIME : ℕ := 1000

section Defs

variable {α : Type} [Field α] {sr sp : ℕ}

-- Space steps and time step, lines 31-33 of the source.
def delta_r : α := 1

def delta_phi : α := 2

def delta_t : α := 1

/-- Lines 44-48: the radius array `r` of the source: entry (i, j) is the row
index i, except that row 0 is overwritten with the small constant 0.000001. -/
def rGrid : Mat sr sp α := fun i _ => if i.val = 0 then 1 / 1000000 else (i.val : α)

-- Scale factors, lines 58-60 of the source.  `h_phi` is the radius array
-- (including the epsilon-substituted row 0).
def h_r : Mat sr sp α := fun _ _ => 1

def h_phi : Mat sr sp α := rGrid

def h_z : Mat sr sp α := fun _ _ => 1

/-- Line 39-40: the uniform medium arrays `epsR = EPSILON0 * ones` and
`muR = MU0 * ones` with EPSILON0 = MU0 = 1. -/
def onesMat (a b : ℕ) : Mat a b α := fun _ _ => 1

-- Index helpers for the slice arithmetic.

/-- Wrapped next azimuthal index (what `phi+1` means under φ-periodicity). -/
def phiSucc (j : Fin sp) : Fin sp :=
  ⟨(j.val + 1) % sp, Nat.mod_lt _ (lt_of_le_of_lt (Nat.zero_le _) j.isLt)⟩

/-- Wrapped previous azimuthal index (`phi-1` under φ-periodicity). -/
def phiPred (j : Fin sp) : Fin sp :=
  ⟨(j.val + (sp - 1)) % sp, Nat.mod_lt _ (lt_of_le_of_lt (Nat.zero_le _) j.isLt)⟩

/-- Row i of an `(sr-1)`-row staggered array, as a row of the full grid. -/
def rCast1 (i : Fin (sr - 1)) : Fin sr := ⟨i.val, by have := i.isLt; omega⟩

/-- Row i+1 of the full grid, for i ranging over the `(sr-1)`-row stagger. -/
def rSucc1 (i : Fin (sr - 1)) : Fin sr := ⟨i.val + 1, by have := i.isLt; omega⟩

/-- Interior row i+1 of the full grid, for i ranging over `0 .. sr-3`
(the rows written by `E_z[1:-1, :]`). -/
def rMid (i : Fin (sr - 2)) : Fin sr := ⟨i.val + 1, by have := i.isLt; omega⟩

/-- Row i+2 of the full grid (the `[2:, :]` slice). -/
def rHi (i : Fin (sr - 2)) : Fin sr := ⟨i.val + 2, by have := i.isLt; omega⟩

/-- Row i of the full grid (the `[:-2, :]` slice). -/
def rLo (i : Fin (sr - 2)) : Fin sr := ⟨i.val, by have := i.isLt; omega⟩

/-- Row i+1 of an `(sr-1)`-row array (the `H_phi[1:, :]` slice). -/
def rMidH (i : Fin (sr - 2)) : Fin (sr - 1) := ⟨i.val + 1, by have := i.isLt; omega⟩

/-- Row i of an `(sr-1)`-row array (the `H_phi[:-1, :]` slice). -/
def rLoH (i : Fin (sr - 2)) : Fin (sr - 1) := ⟨i.val, by have := i.isLt; omega⟩

-- Coefficients for the H_r update, lines 70-75.

def cH_r_H : Mat sr sp α := fun _ _ => 1

/-- Lines 71-72: φ-neighbor average of h_phi; the hstack appends the wrap
column `(h_phi[:, :1] + h_phi[:, -1:]) / 2` after the `sp-1` main columns. -/
def H_r_h_phi : Mat sr sp α := fun i j =>
  if h : j.val < sp - 1 then
    (h_phi i (⟨j.val + 1, by have := j.isLt; omega⟩ : Fin sp) + h_phi i j) / 2
  else
    (h_phi i (⟨0, by have := j.isLt; omega⟩ : Fin sp)
      + h_phi i (⟨sp - 1, by have := j.isLt; omega⟩ : Fin sp)) / 2

/-- Lines 73-74: φ-neighbor average of muR, with the same wrap column. -/
def H_r_muR (muR : Mat sr sp α) : Mat sr sp α := fun i j =>
  if h : j.val < sp - 1 then
    (muR i (⟨j.val + 1, by have := j.isLt; omega⟩ : Fin sp) + muR i j) / 2
  else
    (muR i (⟨0, by have := j.isLt; omega⟩ : Fin sp)
      + muR i (⟨sp - 1, by have := j.isLt; omega⟩ : Fin sp)) / 2

/-- Line 75: `cH_r_E_z = - delta_t / (H_r_muR * delta_phi * H_r_h_phi * h_z)`. -/
def cH_r_E_z (muR : Mat sr sp α) : Mat sr sp α := fun i j =>
  -delta_t / (H_r_muR muR i j * delta_phi * H_r_h_phi i j * h_z i j)

-- Coefficients for the H_phi update, lines 78-82.

def cH_phi_H : Mat (sr - 1) sp α := fun _ _ => 1

def H_phi_h_r : Mat (sr - 1) sp α := fun i j => (h_r (rSucc1 i) j + h_r (rCast1 i) j) / 2

def H_phi_h_z : Mat (sr - 1) sp α := fun i j => (h_z (rSucc1 i) j + h_z (rCast1 i) j) / 2

def H_phi_muR (muR : Mat sr sp α) : Mat (sr - 1) sp α := fun i j =>
  (muR (rSucc1 i) j + muR (rCast1 i) j) / 2

/-- Line 82: `cH_phi_E_z = delta_t / (H_phi_muR * delta_r * H_phi_h_r * H_phi_h_z)`. -/
def cH_phi_E_z (muR : Mat sr sp α) : Mat (sr - 1) sp α := fun i j =>
  delta_t / (H_phi_muR muR i j * delta_r * H_phi_h_r i j * H_phi_h_z i j)

-- Coefficients for the E_z update, lines 85-93 (defined on the interior
-- rows `E_z[1:-1, :]`).

def cE_z_E : Mat (sr - 2) sp α := fun _ _ => 1

def E_z_epsR (epsR : Mat sr sp α) : Mat (sr - 2) sp α := fun i j => epsR (rMid i) j

def E_z_h_r : Mat (sr - 2) sp α := fun i j => h_r (rMid i) j

def E_z_h_phi : Mat (sr - 2) sp α := fun i j => h_phi (rMid i) j

/-- Line 90: `(h_phi[2:, :] + h_phi[1:-1, :]) / 2`. -/
def E_z_h_phi_fwd_avg : Mat (sr - 2) sp α := fun i j => (h_phi (rHi i) j + h_phi (rMid i) j) / 2

/-- Line 91: `(h_phi[1:-1, :] + h_phi[:-2, :]) / 2`. -/
def E_z_h_phi_bwd_avg : Mat (sr - 2) sp α := fun i j => (h_phi (rMid i) j + h_phi (rLo i) j) / 2

/-- Line 92: `cE_z_H_phi = delta_t / (E_z_epsR * delta_r * E_z_h_r * E_z_h_phi)`. -/
def cE_z_H_phi (epsR : Mat sr sp α) : Mat (sr - 2) sp α := fun i j =>
  delta_t / (E_z_epsR epsR i j * delta_r * E_z_h_r i j * E_z_h_phi i j)

/-- Line 93: `cE_z_H_r = - delta_t / (E_z_epsR * delta_phi * E_z_h_r * E_z_h_phi)`. -/
def cE_z_H_r (epsR : Mat sr sp α) : Mat (sr - 2) sp α := fun i j =>
  -delta_t / (E_z_epsR epsR i j * delta_phi * E_z_h_r i j * E_z_h_phi i j)

end Defs

/-- The three field arrays with their staggered shapes, lines 23-27. -/
@[ext]
structure Fields (sr sp : ℕ) (α : Type) where
  E_z : Mat sr sp α
  H_r : Mat sr sp α
  H_phi : Mat (sr - 1) sp α

section Step

variable {α : Type} [Field α] {sr sp : ℕ}

/-- Lines 23-27: all three arrays start at zero. -/
def zeroFields (sr sp : ℕ) : Fields sr sp α :=
  ⟨fun _ _ => 0, fun _ _ => 0, fun _ _ => 0⟩

/-- Lines 103-104: `delta_E_z = E_z[:, 1:] - E_z[:, :-1]` with the wrap
column `E_z[:, :1] - E_z[:, -1:]` appended at the end. -/
def delta_E_z (E_z : Mat sr sp α) : Mat sr sp α := fun i j =>
  if h : j.val < sp - 1 then
    E_z i ⟨j.val + 1, by have := j.isLt; omega⟩ - E_z i j
  else
    E_z i ⟨0, by have := j.isLt; omega⟩ - E_z i ⟨sp - 1, by have := j.isLt; omega⟩

/-- Line 105: `H_r = cH_r_H * H_r + cH_r_E_z * delta_E_z`. -/
def updateH_r (muR E_z H_r : Mat sr sp α) : Mat sr sp α := fun i j =>
  cH_r_H i j * H_r i j + cH_r_E_z muR i j * delta_E_z E_z i j

/-- Line 110: `H_phi = cH_phi_H * H_phi + cH_phi_E_z * (E_z[1:, :] - E_z[:-1, :])`. -/
def updateH_phi (muR E_z : Mat sr sp α) (H_phi : Mat (sr - 1) sp α) : Mat (sr - 1) sp α :=
  fun i j => cH_phi_H i j * H_phi i j + cH_phi_E_z muR i j * (E_z (rSucc1 i) j - E_z (rCast1 i) j)

/-- Lines 116-118: `delta_H_r = H_r[1:-1, 1:] - H_r[1:-1, :-1]` with the wrap
column `H_r[1:-1, :1] - H_r[1:-1, -1:]` prepended (it comes before the rest). -/
def delta_H_r (H_r : Mat sr sp α) : Mat (sr - 2) sp α := fun i j =>
  if h : j.val = 0 then
    H_r (rMid i) ⟨0, by have := j.isLt; omega⟩ - H_r (rMid i) ⟨sp - 1, by have := j.isLt; omega⟩
  else
    H_r (rMid i) j - H_r (rMid i) ⟨j.val - 1, by have := j.isLt; omega⟩

/-- Lines 119-123: the assignment `E_z[1:-1, :] = cE_z_E * E_z[1:-1, :] +
cE_z_H_phi * (E_z_h_phi_fwd_avg * H_phi[1:, :] - E_z_h_phi_bwd_avg * H_phi[:-1, :])
+ cE_z_H_r * delta_H_r`; rows 0 and sr-1 are left as they were. -/
def updateE_z (epsR E_z newH_r : Mat sr sp α) (newH_phi : Mat (sr - 1) sp α) :
    Mat sr sp α := fun r j =>
  if h : 0 < r.val ∧ r.val < sr - 1 then
    cE_z_E (⟨r.val - 1, by omega⟩ : Fin (sr - 2)) j * E_z r j
    + cE_z_H_phi epsR (⟨r.val - 1, by omega⟩ : Fin (sr - 2)) j *
        ( E_z_h_phi_fwd_avg (⟨r.val - 1, by omega⟩ : Fin (sr - 2)) j *
            newH_phi (rMidH (⟨r.val - 1, by omega⟩ : Fin (sr - 2))) j
        - E_z_h_phi_bwd_avg (⟨r.val - 1, by omega⟩ : Fin (sr - 2)) j *
            newH_phi (rLoH (⟨r.val - 1, by omega⟩ : Fin (sr - 2))) j )
    + cE_z_H_r epsR (⟨r.val - 1, by omega⟩ : Fin (sr - 2)) j *
        delta_H_r newH_r (⟨r.val - 1, by omega⟩ : Fin (sr - 2)) j
  else E_z r j

/-- Line 134: the hard source adds the profile value to the single cell. -/
def injectSource (r0 : Fin sr) (p0 : Fin sp) (s : α) (E_z : Mat sr sp α) : Mat sr sp α :=
  fun r j => if r = r0 ∧ j = p0 then E_z r j + s else E_z r j

/-- One pass of the update equations of the loop body (lines 102-123),
without the source: H_r first, then H_phi, then E_z from the new H fields. -/
def stepFields (epsR muR : Mat sr sp α) (st : Fields sr sp α) : Fields sr sp α where
  E_z := updateE_z epsR st.E_z (updateH_r muR st.E_z st.H_r) (updateH_phi muR st.E_z st.H_phi)
  H_r := updateH_r muR st.E_z st.H_r
  H_phi := updateH_phi muR st.E_z st.H_phi

/-- One full iteration of the loop body: field updates, then source injection
at the fixed cell (lines 102-134). -/
def stepWithSource (epsR muR : Mat sr sp α) (r0 : Fin sr) (p0 : Fin sp) (s : α)
    (st : Fields sr sp α) : Fields sr sp α where
  E_z := injectSource r0 p0 s (stepFields epsR muR st).E_z
  H_r := (stepFields epsR muR st).H_r
  H_phi := (stepFields epsR muR st).H_phi

/-- The state after the loop iterations t = 1 .. n (line 98: the loop runs
from t = 1), with `src t` the source profile value injected at step t. -/
def runSim (epsR muR : Mat sr sp α) (r0 : Fin sr) (p0 : Fin sp) (src : ℕ → α)
    (st0 : Fields sr sp α) : ℕ → Fields sr sp α
  | 0 => st0
  | n + 1 => stepWithSource epsR muR r0 p0 (src (n + 1)) (runSim epsR muR r0 p0 src st0 n)

/-- Line 134: the source cell has radial index 50. -/
def sourceCellR : Fin SIZE_R := ⟨50, by decide⟩

/-- Line 134: the source cell has azimuthal index 90. -/
def sourceCellPhi : Fin SIZE_PHI := ⟨90, by decide⟩

end Step

section Script

variable {α : Type} [Field α]

/-- The run of the script itself: the 100 x 180 grid, the uniform unit
medium, zero initial fields, and the source cell (50, 90). -/
def scriptRun (src : ℕ → α) : ℕ → Fields SIZE_R SIZE_PHI α :=
  runSim (onesMat SIZE_R SIZE_PHI) (onesMat SIZE_R SIZE_PHI) sourceCellR sourceCellPhi src
    (zeroFields SIZE_R SIZE_PHI)

/-- Row-list view of an array, for stating the shape invariants. -/
def toLists {a b : ℕ} {α : Type} (A : Mat a b α) : List (List α) :=
  List.ofFn (fun i => List.ofFn (A i))

end Script

section Lemmas

variable {α : Type} [Field α] {sr sp : ℕ}

theorem stepFields_E_z (epsR muR : Mat sr sp α) (st : Fields sr sp α) :
    (stepFields epsR muR st).E_z
      = updateE_z epsR st.E_z (updateH_r muR st.E_z st.H_r) (updateH_phi muR st.E_z st.H_phi) :=
  rfl

theorem stepFields_H_r (epsR muR : Mat sr sp α) (st : Fields sr sp α) :
    (stepFields epsR muR st).H_r = updateH_r muR st.E_z st.H_r :=
  rfl

theorem stepFields_H_phi (epsR muR : Mat sr sp α) (st : Fields sr sp α) :
    (stepFields epsR muR st).H_phi = updateH_phi muR st.E_z st.H_phi :=
  rfl

theorem stepWithSource_E_z (epsR muR : Mat sr sp α) (r0 : Fin sr) (p0 : Fin sp) (s : α)
    (st : Fields sr sp α) :
    (stepWithSource epsR muR r0 p0 s st).E_z
      = injectSource r0 p0 s (stepFields epsR muR st).E_z :=
  rfl

theorem stepWithSource_H_r (epsR muR : Mat sr sp α) (r0 : Fin sr) (p0 : Fin sp) (s : α)
    (st : Fields sr sp α) :
    (stepWithSource epsR muR r0 p0 s st).H_r = (stepFields epsR muR st).H_r :=
  rfl

theorem stepWithSource_H_phi (epsR muR : Mat sr sp α) (r0 : Fin sr) (p0 : Fin sp) (s : α)
    (st : Fields sr sp α) :
    (stepWithSource epsR muR r0 p0 s st).H_phi = (stepFields epsR muR st).H_phi :=
  rfl

theorem zeroFields_E_z : (zeroFields sr sp : Fields sr sp α).E_z = fun _ _ => 0 :=
  rfl

theorem zeroFields_H_r : (zeroFields sr sp : Fields sr sp α).H_r = fun _ _ => 0 :=
  rfl

theorem zeroFields_H_phi : (zeroFields sr sp : Fields sr sp α).H_phi = fun _ _ => 0 :=
  rfl

theorem runSim_succ (epsR muR : Mat sr sp α) (r0 : Fin sr) (p0 : Fin sp) (src : ℕ → α)
    (st0 : Fields sr sp α) (n : ℕ) :
    runSim epsR muR r0 p0 src st0 (n + 1)
      = stepWithSource epsR muR r0 p0 (src (n + 1)) (runSim epsR muR r0 p0 src st0 n) :=
  rfl

/-- The appended wrap column makes `delta_E_z` the forward difference at the
φ-successor index taken modulo `sp`. -/
theorem delta_E_z_phiSucc (A : Mat sr sp α) (i : Fin sr) (j : Fin sp) :
    delta_E_z A i j = A i (phiSucc j) - A i j := by
  have hj := j.isLt
  by_cases h : j.val < sp - 1
  · simp only [delta_E_z]
    rw [dif_pos h]
    have e1 : phiSucc j = (⟨j.val + 1, by omega⟩ : Fin sp) := by
      apply Fin.ext
      show (j.val + 1) % sp = j.val + 1
      exact Nat.mod_eq_of_lt (by omega)
    rw [e1]
  · simp only [delta_E_z]
    rw [dif_neg h]
    have e1 : phiSucc j = (⟨0, by omega⟩ : Fin sp) := by
      apply Fin.ext
      show (j.val + 1) % sp = 0
      rw [show j.val + 1 = sp from by omega]
      exact Nat.mod_self sp
    have e2 : j = (⟨sp - 1, by omega⟩ : Fin sp) := by
      apply Fin.ext
      show j.val = sp - 1
      omega
    rw [e1, congrArg (A i) e2]

/-- The prepended wrap column makes `delta_H_r` the backward difference at the
φ-predecessor index taken modulo `sp`. -/
theorem delta_H_r_phiPred (A : Mat sr sp α) (i : Fin (sr - 2)) (j : Fin sp) :
    delta_H_r A i j = A (rMid i) j - A (rMid i) (phiPred j) := by
  have hj := j.isLt
  by_cases h : j.val = 0
  · simp only [delta_H_r]
    rw [dif_pos h]
    have e1 : phiPred j = (⟨sp - 1, by omega⟩ : Fin sp) := by
      apply Fin.ext
      show (j.val + (sp - 1)) % sp = sp - 1
      rw [h, Nat.zero_add]
      exact Nat.mod_eq_of_lt (by omega)
    have e2 : j = (⟨0, by omega⟩ : Fin sp) := by
      apply Fin.ext
      show j.val = 0
      exact h
    rw [e1, congrArg (A (rMid i)) e2]
  · simp only [delta_H_r]
    rw [dif_neg h]
    have e1 : phiPred j = (⟨j.val - 1, by omega⟩ : Fin sp) := by
      apply Fin.ext
      show (j.val + (sp - 1)) % sp = j.val - 1
      rw [show j.val + (sp - 1) = (j.val - 1) + sp from by omega, Nat.add_mod_right]
      exact Nat.mod_eq_of_lt (by omega)
    rw [e1]

theorem delta_E_z_zero (i : Fin sr) (j : Fin sp) :
    delta_E_z (fun _ _ => (0 : α)) i j = 0 := by
  simp only [delta_E_z]
  split <;> simp

theorem delta_H_r_zero (i : Fin (sr - 2)) (j : Fin sp) :
    delta_H_r (fun _ _ => (0 : α)) i j = 0 := by
  simp only [delta_H_r]
  split <;> simp

theorem updateH_r_zeroF (muR : Mat sr sp α) :
    updateH_r muR (fun _ _ => 0) (fun _ _ => 0) = fun _ _ => 0 := by
  funext i j
  simp only [updateH_r]
  rw [delta_E_z_zero]
  simp

theorem updateH_phi_zeroF (muR : Mat sr sp α) :
    updateH_phi muR (fun _ _ => 0) (fun _ _ => 0) = fun _ _ => 0 := by
  funext i j
  simp [updateH_phi]

theorem updateE_z_zeroF (epsR : Mat sr sp α) :
    updateE_z epsR (fun _ _ => 0) (fun _ _ => 0) (fun _ _ => 0) = fun _ _ => 0 := by
  funext r j
  simp only [updateE_z]
  split
  · rw [delta_H_r_zero]
    simp
  · rfl

theorem stepWithSource_zero_E_z (epsR muR : Mat sr sp α) (r0 : Fin sr) (p0 : Fin sp) (s : α)
    (r : Fin sr) (j : Fin sp) :
    (stepWithSource epsR muR r0 p0 s (zeroFields sr sp)).E_z r j
      = if r = r0 ∧ j = p0 then s else 0 := by
  rw [stepWithSource_E_z, stepFields_E_z, zeroFields_E_z, zeroFields_H_r, zeroFields_H_phi,
    updateH_r_zeroF, updateH_phi_zeroF, updateE_z_zeroF]
  simp [injectSource]

theorem stepWithSource_zero_H_r (epsR muR : Mat sr sp α) (r0 : Fin sr) (p0 : Fin sp) (s : α)
    (r : Fin sr) (j : Fin sp) :
    (stepWithSource epsR muR r0 p0 s (zeroFields sr sp)).H_r r j = 0 := by
  rw [stepWithSource_H_r, stepFields_H_r, zeroFields_E_z, zeroFields_H_r, updateH_r_zeroF]

theorem stepWithSource_zero_H_phi (epsR muR : Mat sr sp α) (r0 : Fin sr) (p0 : Fin sp) (s : α)
    (i : Fin (sr - 1)) (j : Fin sp) :
    (stepWithSource epsR muR r0 p0 s (zeroFields sr sp)).H_phi i j = 0 := by
  rw [stepWithSource_H_phi, stepFields_H_phi, zeroFields_E_z, zeroFields_H_phi,
    updateH_phi_zeroF]

theorem stepWithSource_zero_zero (epsR muR : Mat sr sp α) (r0 : Fin sr) (p0 : Fin sp) :
    stepWithSource epsR muR r0 p0 (0 : α) (zeroFields sr sp) = zeroFields sr sp := by
  ext1
  · funext r j
    rw [stepWithSource_zero_E_z, zeroFields_E_z]
    simp
  · funext r j
    rw [stepWithSource_zero_H_r, zeroFields_H_r]
  · funext i j
    rw [stepWithSource_zero_H_phi, zeroFields_H_phi]

end Lemmas

/-- Both branches of the φ-neighbor average of h_phi give the same value,
because h_phi depends only on the radial index. -/
theorem H_r_h_phi_apply {α : Type} [Field α] {sr sp : ℕ} (i : Fin sr) (j : Fin sp) :
    (H_r_h_phi i j : α) = (h_phi i j + h_phi i j) / 2 := by
  simp only [H_r_h_phi]
  split <;> rfl

/-- For a spatially uniform muR, the φ-neighbor average (wrap column
included) is the constant itself averaged with itself. -/
theorem H_r_muR_const {α : Type} [Field α] {sr sp : ℕ} (m : α) (i : Fin sr) (j : Fin sp) :
    H_r_muR (fun _ _ => m) i j = (m + m) / 2 := by
  simp only [H_r_muR]
  split <;> rfl

theorem scriptRun_one {α : Type} [Field α] (src : ℕ → α) :
    scriptRun src 1 = stepWithSource (onesMat SIZE_R SIZE_PHI) (onesMat SIZE_R SIZE_PHI)
      sourceCellR sourceCellPhi (src 1) (zeroFields SIZE_R SIZE_PHI) :=
  rfl

-- Concrete fixtures (a small 4 x 3 grid over ℚ) used by the witness theorems.

def testE_z : Mat 4 3 ℚ := fun i j => (i.val : ℚ) + 10 * (j.val : ℚ) + 1

def testH_r : Mat 4 3 ℚ := fun i j => 2 * (i.val : ℚ) - (j.val : ℚ)

def testH_phi : Mat 3 3 ℚ := fun i j => (i.val : ℚ) * (j.val : ℚ) + 2

def testFields : Fields 4 3 ℚ := ⟨testE_z, testH_r, testH_phi⟩

section Claims

variable {α : Type} [Field α]

/-- C4: at every time step, the new H_r at (r, phi) is
`cH_r_H[r,phi] * H_r[r,phi] + cH_r_E_z[r,phi] * (E_z[r, (phi+1) mod size_phi]
- E_z[r, phi])`, the φ-difference of the current E_z with periodic wraparound;
in particular at phi = size_phi - 1 the next φ-neighbor is E_z[r, 0]. -/
theorem C4_Hr_update (sr sp : ℕ) (epsR muR : Mat sr sp α) (r0 : Fin sr) (p0 : Fin sp)
    (src : ℕ → α) (st0 : Fields sr sp α) (n : ℕ) (r : Fin sr) (j : Fin sp) :
    (runSim epsR muR r0 p0 src st0 (n + 1)).H_r r j
      = cH_r_H r j * (runSim epsR muR r0 p0 src st0 n).H_r r j
        + cH_r_E_z muR r j *
            ((runSim epsR muR r0 p0 src st0 n).E_z r (phiSucc j)
              - (runSim epsR muR r0 p0 src st0 n).E_z r j)
  ∧ (j.val = sp - 1 →
      (runSim epsR muR r0 p0 src st0 (n + 1)).H_r r j
        = cH_r_H r j * (runSim epsR muR r0 p0 src st0 n).H_r r j
          + cH_r_E_z muR r j *
              ((runSim epsR muR r0 p0 src st0 n).E_z r
                  (⟨0, by have := j.isLt; omega⟩ : Fin sp)
                - (runSim epsR muR r0 p0 src st0 n).E_z r j)) := by
  constructor
  · rw [runSim_succ, stepWithSource_H_r, stepFields_H_r]
    simp only [updateH_r]
    rw [delta_E_z_phiSucc]
  · intro h
    rw [runSim_succ, stepWithSource_H_r, stepFields_H_r]
    simp only [updateH_r]
    rw [delta_E_z_phiSucc]
    have e1 : phiSucc j = (⟨0, by have := j.isLt; omega⟩ : Fin sp) := by
      apply Fin.ext
      show (j.val + 1) % sp = 0
      rw [show j.val + 1 = sp from by have := j.isLt; omega]
      exact Nat.mod_self sp
    rw [e1]

/-- C4 witness: the wraparound clause of C4_Hr_update evaluated at the 4 x 3
fixture, at the last azimuthal column phi = 2. -/
theorem C4_Hr_update_witness :
    (2 : ℕ) = 3 - 1
  ∧ (runSim (onesMat 4 3) (onesMat 4 3) (⟨0, by decide⟩ : Fin 4) (⟨0, by decide⟩ : Fin 3)
        (fun t => (t : ℚ)) testFields 1).H_r ⟨1, by decide⟩ ⟨2, by decide⟩
      = cH_r_H (⟨1, by decide⟩ : Fin 4) (⟨2, by decide⟩ : Fin 3)
          * testFields.H_r ⟨1, by decide⟩ ⟨2, by decide⟩
        + cH_r_E_z (onesMat 4 3) ⟨1, by decide⟩ ⟨2, by decide⟩ *
            (testFields.E_z ⟨1, by decide⟩ ⟨0, by decide⟩
              - testFields.E_z ⟨1, by decide⟩ ⟨2, by decide⟩) :=
  ⟨rfl, (C4_Hr_update 4 3 (onesMat 4 3) (onesMat 4 3) ⟨0, by decide⟩ ⟨0, by decide⟩
      (fun t => (t : ℚ)) testFields 0 ⟨1, by decide⟩ ⟨2, by decide⟩).2 rfl⟩

/-- C1: at every interior radius r = i+1 (i ranging over `0 .. size_r-3`, so
r over `1 .. size_r-2`) and every phi, the new E_z combines the difference of
the newly updated H_phi rows weighted by the two neighboring interior-averaged
scale factors (`E_z_h_phi_fwd_avg`, `E_z_h_phi_bwd_avg`), and the azimuthal
difference of the newly updated H_r, the latter periodic in φ (the index
`phiPred j` wraps modulo size_phi between columns 0 and size_phi-1, the same
wraparound pairing as the H_r update's own φ-difference). -/
theorem C1_Ez_interior_update (sr sp : ℕ) (epsR muR : Mat sr sp α) (st : Fields sr sp α)
    (i : Fin (sr - 2)) (j : Fin sp) :
    (stepFields epsR muR st).E_z (rMid i) j
      = cE_z_E i j * st.E_z (rMid i) j
      + cE_z_H_phi epsR i j *
          ( E_z_h_phi_fwd_avg i j * (stepFields epsR muR st).H_phi (rMidH i) j
          - E_z_h_phi_bwd_avg i j * (stepFields epsR muR st).H_phi (rLoH i) j )
      + cE_z_H_r epsR i j *
          ( (stepFields epsR muR st).H_r (rMid i) j
          - (stepFields epsR muR st).H_r (rMid i) (phiPred j) ) := by
  have hi := i.isLt
  rw [stepFields_E_z, stepFields_H_r, stepFields_H_phi, ← delta_H_r_phiPred]
  simp only [updateE_z]
  rw [dif_pos (show 0 < (rMid i).val ∧ (rMid i).val < sr - 1 from by
    show 0 < i.val + 1 ∧ i.val + 1 < sr - 1
    omega)]
  rfl

/-- C5: the E_z update step leaves the innermost row `E_z[0, :]` and the
outermost row `E_z[size_r - 1, :]` unchanged, for any state (hence at every
time step); only the separate source injection can alter E_z elsewhere. -/
theorem C5_boundary_freeze (sr sp : ℕ) (hsr : 0 < sr) (epsR muR : Mat sr sp α)
    (st : Fields sr sp α) (j : Fin sp) :
    (stepFields epsR muR st).E_z ⟨0, hsr⟩ j = st.E_z ⟨0, hsr⟩ j
  ∧ (stepFields epsR muR st).E_z ⟨sr - 1, by omega⟩ j = st.E_z ⟨sr - 1, by omega⟩ j := by
  constructor
  · rw [stepFields_E_z]
    simp only [updateE_z]
    rw [dif_neg (fun hc => absurd hc.1 (lt_irrefl 0))]
  · rw [stepFields_E_z]
    simp only [updateE_z]
    rw [dif_neg (fun hc => absurd hc.2 (lt_irrefl (sr - 1)))]

/-- C5 witness: the freeze of row 0 evaluated at the 4 x 3 fixture. -/
theorem C5_boundary_freeze_witness :
    (0 : ℕ) < 4
  ∧ (stepFields (onesMat 4 3) (onesMat 4 3) testFields).E_z ⟨0, by decide⟩ ⟨1, by decide⟩
      = testFields.E_z ⟨0, by decide⟩ ⟨1, by decide⟩ :=
  ⟨by decide,
    (C5_boundary_freeze 4 3 (by decide) (onesMat 4 3) (onesMat 4 3) testFields
      ⟨1, by decide⟩).1⟩

/-- C6: with a zero source profile and all three field arrays starting at
zero, the state is exactly the zero state after every time step. -/
theorem C6_zero_source (sr sp : ℕ) (epsR muR : Mat sr sp α) (r0 : Fin sr) (p0 : Fin sp)
    (n : ℕ) :
    runSim epsR muR r0 p0 (fun _ => 0) (zeroFields sr sp) n = zeroFields sr sp := by
  induction n with
  | zero => rfl
  | succ n ih =>
      rw [runSim_succ, ih]
      exact stepWithSource_zero_zero epsR muR r0 p0

/-- C10: in the E_z update, the azimuthal difference `delta_H_r` is a backward
difference whose wrap element sits first: at phi = 0 it is
`H_r[r, 0] - H_r[r, size_phi-1]`, and at phi ≥ 1 it is
`H_r[r, phi] - H_r[r, phi-1]` — the opposite offset orientation to the forward
difference `delta_E_z` of the H_r update, which at phi < size_phi-1 is
`E_z[r, phi+1] - E_z[r, phi]` with its wrap element `E_z[r, 0] - E_z[r,
size_phi-1]` placed last. -/
theorem C10_difference_orientation (sr sp : ℕ) (A B : Mat sr sp α)
    (i : Fin (sr - 2)) (r : Fin sr) (j : Fin sp) :
    (j.val = 0 → delta_H_r A i j
        = A (rMid i) j - A (rMid i) (⟨sp - 1, by have := j.isLt; omega⟩ : Fin sp))
  ∧ (1 ≤ j.val → delta_H_r A i j
        = A (rMid i) j - A (rMid i) (⟨j.val - 1, by have := j.isLt; omega⟩ : Fin sp))
  ∧ (∀ h : j.val < sp - 1, delta_E_z B r j
        = B r (⟨j.val + 1, by omega⟩ : Fin sp) - B r j)
  ∧ (j.val = sp - 1 → delta_E_z B r j
        = B r (⟨0, by have := j.isLt; omega⟩ : Fin sp)
          - B r (⟨sp - 1, by have := j.isLt; omega⟩ : Fin sp)) := by
  refine ⟨?_, ?_, ?_, ?_⟩
  · intro h
    simp only [delta_H_r]
    rw [dif_pos h]
    have e : j = (⟨0, by have := j.isLt; omega⟩ : Fin sp) := Fin.ext h
    rw [congrArg (A (rMid i)) e]
  · intro h
    simp only [delta_H_r]
    rw [dif_neg (by omega)]
  · intro h
    simp only [delta_E_z]
    rw [dif_pos h]
  · intro h
    have hj := j.isLt
    simp only [delta_E_z]
    rw [dif_neg (by omega)]

/-- C10 witness: the wrap-first clause evaluated at the 4 x 3 fixture, at
phi = 0. -/
theorem C10_difference_orientation_witness :
    (0 : ℕ) = 0
  ∧ delta_H_r testH_r (⟨1, by decide⟩ : Fin (4 - 2)) ⟨0, by decide⟩
      = testH_r (rMid (⟨1, by decide⟩ : Fin (4 - 2))) ⟨0, by decide⟩
        - testH_r (rMid (⟨1, by decide⟩ : Fin (4 - 2))) ⟨2, by decide⟩ :=
  ⟨rfl, (C10_difference_orientation 4 3 testH_r testE_z ⟨1, by decide⟩ ⟨0, by decide⟩
      ⟨0, by decide⟩).1 rfl⟩

/-- C7: at every time step the array shapes are invariant: E_z and H_r have
size_r rows, H_phi has size_r - 1 rows, and every row of all three has
size_phi entries. -/
theorem C7_shape_invariants (sr sp : ℕ) (epsR muR : Mat sr sp α) (r0 : Fin sr) (p0 : Fin sp)
    (src : ℕ → α) (st0 : Fields sr sp α) (n : ℕ) :
    (toLists ((runSim epsR muR r0 p0 src st0 n).E_z)).length = sr
  ∧ (∀ row ∈ toLists ((runSim epsR muR r0 p0 src st0 n).E_z), row.length = sp)
  ∧ (toLists ((runSim epsR muR r0 p0 src st0 n).H_r)).length = sr
  ∧ (∀ row ∈ toLists ((runSim epsR muR r0 p0 src st0 n).H_r), row.length = sp)
  ∧ (toLists ((runSim epsR muR r0 p0 src st0 n).H_phi)).length = sr - 1
  ∧ (∀ row ∈ toLists ((runSim epsR muR r0 p0 src st0 n).H_phi), row.length = sp) := by
  refine ⟨?_, ?_, ?_, ?_, ?_, ?_⟩ <;> simp [toLists]

/-- C7 witness: the per-row clause for E_z evaluated on a 1 x 1 grid (the one
row of the zero state has length 1). -/
theorem C7_shape_invariants_witness :
    [(0 : ℚ)] ∈ toLists ((runSim (onesMat 1 1) (onesMat 1 1) (⟨0, by decide⟩ : Fin 1)
        (⟨0, by decide⟩ : Fin 1) (fun _ => 0) (zeroFields 1 1) 0).E_z)
  ∧ ([(0 : ℚ)]).length = 1 :=
  ⟨by decide,
    (C7_shape_invariants 1 1 (onesMat 1 1) (onesMat 1 1) ⟨0, by decide⟩ ⟨0, by decide⟩
      (fun _ => 0) (zeroFields 1 1) 0).2.1 [(0 : ℚ)] (by decide)⟩

/-- C9: with a spatially uniform medium (epsilon ≡ e, mu ≡ m), every
coefficient array — cH_r_E_z, cH_phi_E_z, cE_z_H_phi, cE_z_H_r, and the unit
self-coefficients cH_r_H, cH_phi_H, cE_z_E — is constant along φ at any fixed
radial index, including at the wrapped last column of the periodic
neighbor-averaging. -/
theorem C9_phi_uniform_coefficients (sr sp : ℕ) (e m : α) (r : Fin sr) (i1 : Fin (sr - 1))
    (i2 : Fin (sr - 2)) (j j2 : Fin sp) :
    cH_r_E_z (fun _ _ => m) r j = cH_r_E_z (fun _ _ => m) r j2
  ∧ cH_phi_E_z (fun _ _ => m) i1 j = cH_phi_E_z (fun _ _ => m) i1 j2
  ∧ cE_z_H_phi (fun _ _ => e) i2 j = cE_z_H_phi (fun _ _ => e) i2 j2
  ∧ cE_z_H_r (fun _ _ => e) i2 j = cE_z_H_r (fun _ _ => e) i2 j2
  ∧ (cH_r_H r j : α) = cH_r_H r j2
  ∧ (cH_phi_H i1 j : α) = cH_phi_H i1 j2
  ∧ (cE_z_E i2 j : α) = cE_z_E i2 j2 := by
  refine ⟨?_, rfl, rfl, rfl, rfl, rfl, rfl⟩
  simp only [cH_r_E_z]
  rw [H_r_h_phi_apply, H_r_h_phi_apply, H_r_muR_const, H_r_muR_const]
  rfl

/-- C2 counterexample: h_phi is not computed from the true radius values — at
the r = 0 row its value is the substituted epsilon 1/1000000, not the true
radius 0.  (The claim that the epsilon substitution never enters the physics
arrays is therefore false: line 59 defines h_phi as the substituted array.) -/
theorem C2_counterexample :
    (h_phi (⟨0, by decide⟩ : Fin 100) (⟨0, by decide⟩ : Fin 180) : ℚ) ≠ 0
  ∧ (h_phi (⟨0, by decide⟩ : Fin 100) (⟨0, by decide⟩ : Fin 180) : ℚ) = 1 / 1000000 := by
  have hv : (h_phi (⟨0, by decide⟩ : Fin 100) (⟨0, by decide⟩ : Fin 180) : ℚ)
      = 1 / 1000000 := rfl
  exact ⟨by rw [hv]; norm_num, hv⟩

/-- C2 (amended): the epsilon radius substituted at the r = 0 row is shared
with the physics arrays: h_phi equals the substituted radius array — 1/1000000
on row 0 and the true radius r on every other row — and consequently the
coefficient cH_r_E_z of the script's unit medium is the finite value -500000
on row 0 instead of a division by the true radius 0. -/
theorem C2_epsilon_reaches_physics (sr sp : ℕ) (r : Fin sr) (j : Fin sp)
    (j2 : Fin SIZE_PHI) :
    (h_phi r j : ℚ) = (if r.val = 0 then 1 / 1000000 else (r.val : ℚ))
  ∧ cH_r_E_z (onesMat SIZE_R SIZE_PHI) (⟨0, by decide⟩ : Fin SIZE_R) j2 = (-500000 : ℚ) := by
  constructor
  · rfl
  · have hv : (h_phi (⟨0, by decide⟩ : Fin SIZE_R) j2 : ℚ) = 1 / 1000000 := rfl
    have ho : (onesMat SIZE_R SIZE_PHI : Mat SIZE_R SIZE_PHI ℚ) = fun _ _ => 1 := rfl
    simp only [cH_r_E_z]
    rw [ho, H_r_h_phi_apply, H_r_muR_const, hv]
    norm_num [h_z, delta_t, delta_phi]

/-- C3: the code performs no validation at all — the coefficient arrays are
built by plain elementwise division, so a non-positive medium entry produces a
zero denominator without any configuration error being raised before
stepping.  Evaluated at the failing input muR ≡ 0 on a 2 x 2 grid: the
denominator of cH_r_E_z is 0, yet construction still yields a value (the
division-by-zero convention of the embedding; numpy emits inf and the loop
runs). -/
theorem C3_no_construction_validation :
    H_r_muR (fun (_ : Fin 2) (_ : Fin 2) => (0 : ℚ)) ⟨0, by decide⟩ ⟨0, by decide⟩
        * delta_phi * H_r_h_phi (⟨0, by decide⟩ : Fin 2) (⟨0, by decide⟩ : Fin 2)
        * h_z (⟨0, by decide⟩ : Fin 2) (⟨0, by decide⟩ : Fin 2) = 0
  ∧ cH_r_E_z (fun (_ : Fin 2) (_ : Fin 2) => (0 : ℚ)) ⟨0, by decide⟩ ⟨0, by decide⟩ = 0 := by
  have hv : (h_phi (⟨0, by decide⟩ : Fin 2) (⟨0, by decide⟩ : Fin 2) : ℚ) = 1 / 1000000 := rfl
  constructor
  · rw [H_r_muR_const, H_r_h_phi_apply, hv]
    norm_num [h_z, delta_phi]
  · simp only [cH_r_E_z]
    rw [H_r_muR_const, H_r_h_phi_apply, hv]
    norm_num [h_z, delta_t, delta_phi, div_zero]

/-- C8: after one complete step (t = 1) from zero fields, the script's
Gaussian source exp(-(t-30)²/100) has been added at the fixed cell (50, 90)
only: E_z there equals exp(-(1-30)²/100) (which is non-zero), E_z vanishes at
every other cell, and H_r and H_phi are identically zero. -/
theorem C8_gaussian_injection_step_one :
    (scriptRun (fun t => Real.exp (-((t : ℝ) - 30) * ((t : ℝ) - 30) / 100)) 1).E_z
        sourceCellR sourceCellPhi
      = Real.exp (-((1 : ℝ) - 30) ^ 2 / 100)
  ∧ (∀ (r : Fin SIZE_R) (p : Fin SIZE_PHI), ¬(r.val = 50 ∧ p.val = 90) →
      (scriptRun (fun t => Real.exp (-((t : ℝ) - 30) * ((t : ℝ) - 30) / 100)) 1).E_z r p = 0)
  ∧ (∀ (r : Fin SIZE_R) (p : Fin SIZE_PHI),
      (scriptRun (fun t => Real.exp (-((t : ℝ) - 30) * ((t : ℝ) - 30) / 100)) 1).H_r r p = 0)
  ∧ (∀ (i : Fin (SIZE_R - 1)) (p : Fin SIZE_PHI),
      (scriptRun (fun t => Real.exp (-((t : ℝ) - 30) * ((t : ℝ) - 30) / 100)) 1).H_phi i p = 0)
  ∧ Real.exp (-((1 : ℝ) - 30) ^ 2 / 100) ≠ 0 := by
  refine ⟨?_, ?_, ?_, ?_, Real.exp_ne_zero _⟩
  · rw [scriptRun_one, stepWithSource_zero_E_z, if_pos ⟨rfl, rfl⟩]
    congr 1
    push_cast
    ring
  · intro r p h
    rw [scriptRun_one, stepWithSource_zero_E_z,
      if_neg (fun hc => h ⟨by rw [hc.1]; rfl, by rw [hc.2]; rfl⟩)]
  · intro r p
    rw [scriptRun_one, stepWithSource_zero_H_r]
  · intro i p
    rw [scriptRun_one, stepWithSource_zero_H_phi]

/-- C8 witness: the away-from-source clause evaluated at cell (0, 0). -/
theorem C8_gaussian_injection_step_one_witness :
    ¬((0 : ℕ) = 50 ∧ (0 : ℕ) = 90)
  ∧ (scriptRun (fun t => Real.exp (-((t : ℝ) - 30) * ((t : ℝ) - 30) / 100)) 1).E_z
      ⟨0, by decide⟩ ⟨0, by decide⟩ = 0 :=
  ⟨by decide,
    C8_gaussian_injection_step_one.2.1 ⟨0, by decide⟩ ⟨0, by decide⟩ (by decide)⟩

end Claims

end CylFDTD
